import Mathlib

/-
Verification of the annotation-indexing engine of the comment2var editor
extension (src/extension.ts), as a shallow embedding in Lean 4.

The embedding follows the source closely:
  * `scan` embeds the text-scanning core of `parseDocument` (lines 46-80):
    splitting on `\r?\n`, the annotation regex `//\s*@{1}\s*(.+)` with
    JavaScript leftmost-match and backtracking semantics, the lookahead
    skipping blank lines, and the identifier regex
    `(?:const|let|var)\s+(\w+)\s*=|(\w+)\s*:`.
  * `parseDoc` embeds the eligibility guards of `parseDocument`
    (scheme, workspace membership, excluded-directory substring check)
    and the store update.
  * `resolveCompletions` embeds `provideCompletionItems` (lines 128-179):
    the `@([^\s@]*)$` cursor-prefix match, prefix filtering of the index,
    and the replace/insert text edit.
  * `dtrigger`/`runTriggers` embed the `debounce` wrapper (lines 8-18)
    with explicit single-threaded time: a pending timer is cancelled by a
    strictly earlier trigger and fires otherwise; `handleTextChanged`
    embeds the `onDidChangeTextDocument` handler, which routes through
    the single shared wrapper `parseDocumentWithDebounce2 =
    debounce(parseDocument, 300)`.
-/

set_option autoImplicit false

namespace Comment2Var

/-- Whitespace class of JavaScript `\s`, restricted to ASCII. -/
def isSpace (c : Char) : Bool :=
  c = ' ' || c = '\t' || c = '\n' || c = '\r' || c = '\x0b' || c = '\x0c'

/-- Word-character class of JavaScript `\w`: letters, digits, underscore. -/
def isWordChar (c : Char) : Bool :=
  c.isAlphanum || c = '_'

/-- Characters matched by the JavaScript dot `.` (no line terminators). -/
def isDotChar (c : Char) : Bool :=
  !(c = '\n' || c = '\r')

/-- JavaScript `String.prototype.trim` on a character list. -/
def trimChars (s : List Char) : List Char :=
  ((s.dropWhile isSpace).reverse.dropWhile isSpace).reverse

/-- Length of the maximal whitespace run at the head of `s` (greedy `\s*`). -/
def wsRun (s : List Char) : Nat :=
  (s.takeWhile isSpace).length

/-- Accumulator pass of `text.split(/\r?\n/g)`: a line break is `\n` or
`\r\n`; a lone `\r` is not a separator and stays inside its line. -/
def splitLinesAux : List Char → List Char → List (List Char)
  | [], acc => [acc.reverse]
  | '\r' :: '\n' :: rest, acc => acc.reverse :: splitLinesAux rest []
  | '\n' :: rest, acc => acc.reverse :: splitLinesAux rest []
  | c :: rest, acc => splitLinesAux rest (c :: acc)

/-- Embedding of `text.split(/\r?\n/g)` from line 47 of the source. -/
def splitLines (text : String) : List String :=
  (splitLinesAux text.data []).map List.asString

/-- Matching of the tail `\s*(.+)` of the annotation regex against the text
`rest` standing after the `@`.  The greedy `\s*` first takes `k` whitespace
characters (tried from the maximal run downward, as backtracking does) and
`(.+)` then needs one dot-matchable character, capturing greedily. -/
def annCaptureTry (rest : List Char) : Nat → Option (List Char)
  | 0 =>
    match rest with
    | c :: _ => if isDotChar c then some (rest.takeWhile isDotChar) else none
    | [] => none
  | k + 1 =>
    match rest.drop (k + 1) with
    | c :: _ =>
      if isDotChar c then some ((rest.drop (k + 1)).takeWhile isDotChar)
      else annCaptureTry rest k
    | [] => annCaptureTry rest k

/-- Capture of `\s*(.+)` after the `@`, starting from the greedy run. -/
def annCapture (rest : List Char) : Option (List Char) :=
  annCaptureTry rest (wsRun rest)

/-- Attempt to match `\/\/\s*@{1}\s*(.+)` at the head of `s`.  After the
literal `//`, the greedy `\s*` must be followed by `@` (no backtracking can
help since `@` is not whitespace), then the tail is matched by
`annCapture`. -/
def matchAnnAt (s : List Char) : Option (List Char) :=
  match s with
  | '/' :: '/' :: rest =>
    (match rest.drop (wsRun rest) with
     | '@' :: rest2 => annCapture rest2
     | _ => none)
  | _ => none

/-- Leftmost match of the annotation regex over the line, as JavaScript
`String.prototype.match` performs it: try each start position left to
right. -/
def findAnn : List Char → Option (List Char)
  | [] => none
  | c :: rest =>
    match matchAnnAt (c :: rest) with
    | some cap => some cap
    | none => findAnn rest

/-- The candidate label of a line: the capture of the annotation regex,
trimmed (source line 57, `annotationMatch[1].trim()`). -/
def annLabel (line : String) : Option String :=
  (findAnn line.data).map (fun c => (trimChars c).asString)

/-- Literal keyword alternation `(?:const|let|var)` at the head of `s`;
at most one branch can apply since the first characters differ. -/
def stripKeyword : List Char → Option (List Char)
  | 'c' :: 'o' :: 'n' :: 's' :: 't' :: rest => some rest
  | 'l' :: 'e' :: 't' :: rest => some rest
  | 'v' :: 'a' :: 'r' :: rest => some rest
  | _ => none

/-- Second alternative `(\w+)\s*:` at the head of `s`: a maximal word run
(at least one character), a maximal whitespace run, then a colon.  The
character classes are disjoint and `:` belongs to neither, so greedy
matching without backtracking is exact. -/
def matchPropAt (s : List Char) : Option (List Char) :=
  let w := s.takeWhile isWordChar
  if w.isEmpty then none
  else
    let r := s.drop w.length
    match r.drop (wsRun r) with
    | ':' :: _ => some w
    | _ => none

/-- First alternative `(?:const|let|var)\s+(\w+)\s*=` at the head of `s`,
falling back to the second alternative at the same position when it fails,
as the regex alternation does. -/
def matchIdentAt (s : List Char) : Option (List Char) :=
  match stripKeyword s with
  | some rest =>
    let k := wsRun rest
    if k = 0 then matchPropAt s
    else
      let r2 := rest.drop k
      let w := r2.takeWhile isWordChar
      if w.isEmpty then matchPropAt s
      else
        let r3 := r2.drop w.length
        match r3.drop (wsRun r3) with
        | '=' :: _ => some w
        | _ => matchPropAt s
  | none => matchPropAt s

/-- Leftmost match of the identifier regex
`(?:const|let|var)\s+(\w+)\s*=|(\w+)\s*:` over the line; at each position
the first alternative is preferred, and the leftmost position wins. -/
def findIdent : List Char → Option (List Char)
  | [] => none
  | c :: rest =>
    match matchIdentAt (c :: rest) with
    | some w => some w
    | none => findIdent rest

/-- The identifier extracted from a line, `variableMatch[1] ||
variableMatch[2]` (source line 70). -/
def extractIdent (line : String) : Option String :=
  (findIdent line.data).map List.asString

/-- The lookahead of source lines 60-64: skip lines whose `trim()` is
empty and return the first non-blank line, if any. -/
def firstNonBlank (lines : List String) : Option String :=
  lines.find? (fun l => !(trimChars l.data).isEmpty)

/-- JavaScript `Map.prototype.set` on an association list: an existing key
keeps its position and gets the new value, a new key is appended. -/
def alSet {β : Type} : List (String × β) → String → β → List (String × β)
  | [], k, v => [(k, v)]
  | (k', v') :: rest, k, v =>
    if k' = k then (k, v) :: rest else (k', v') :: alSet rest k v

/-- JavaScript `Map.prototype.get` on an association list. -/
def alGet {β : Type} : List (String × β) → String → Option β
  | [], _ => none
  | (k', v) :: rest, k => if k' = k then some v else alGet rest k

/-- An annotation index: label to identifier, in insertion order. -/
abbrev AnnMap : Type := List (String × String)

/-- Body of one iteration of the scanning loop of `parseDocument`
(source lines 52-77): on an annotation match, look ahead to the first
non-blank line among the remaining lines and, if it yields an
identifier, set the mapping; otherwise leave the map unchanged. -/
def scanStep (line : String) (rest : List String) (m : AnnMap) : AnnMap :=
  match annLabel line, Option.bind (firstNonBlank rest) extractIdent with
  | some lab, some v => alSet m lab v
  | _, _ => m

/-- The scanning loop of `parseDocument` (source lines 51-78): the loop
over indices `i` with lookahead `j > i` is the recursion over the head
line with lookahead into the remaining lines. -/
def scanLines : List String → AnnMap → AnnMap
  | [], m => m
  | line :: rest, m => scanLines rest (scanStep line rest m)

/-- The Scanner: full text to annotation index. -/
def scan (text : String) : AnnMap :=
  scanLines (splitLines text) []

/-- A document as the source observes it: URI scheme, filesystem path,
URI string (the store key, `doc.uri.toString()`), and full text. -/
structure Doc where
  scheme : String
  fsPath : String
  uri : String
  text : String
deriving DecidableEq

/-- The Document Index Store, `documentAnnotations`: document URI string
to annotation index. -/
abbrev Store : Type := List (String × AnnMap)

/-- Substring containment, JavaScript `String.prototype.includes`. -/
def containsSub (s pat : List Char) : Bool :=
  s.tails.any (fun t => pat.isPrefixOf t)

/-- Whether `s.startsWith pre` holds, JavaScript
`String.prototype.startsWith`. -/
def strStartsWith (s pre : String) : Bool :=
  pre.data.isPrefixOf s.data

/-- The excluded-directory check of source line 43:
`doc.uri.fsPath.includes('node_modules') ||
doc.uri.fsPath.includes('.vscode')` — a plain substring test. -/
def excludedPath (fsPath : String) : Bool :=
  containsSub fsPath.data "node_modules".data ||
    containsSub fsPath.data ".vscode".data

/-- Embedding of `parseDocument` (source lines 22-81): the eligibility guards —
file scheme, configured workspace folders present, path under some
folder (`startsWith`), excluded-directory substring check — followed by
the scan and the full replacement of the store entry. -/
def parseDoc (folders : Option (List String)) (store : Store) (doc : Doc) :
    Store :=
  if doc.scheme ≠ "file" then store
  else
    match folders with
    | none => store
    | some fs =>
      if !fs.any (fun f => strStartsWith doc.fsPath f) then store
      else if excludedPath doc.fsPath then store
      else alSet store doc.uri (scan doc.text)

/-- The text edit attached to a completion item: either replace the
character range `[startCol, endCol)` of the cursor line, or insert at a
column. -/
inductive TextEdit where
  | replace (startCol endCol : Nat) (newText : String)
  | insert (col : Nat) (newText : String)
deriving DecidableEq

/-- A completion item as `provideCompletionItems` builds it: label,
detail, sortText, preselect flag, filterText, and its text edit. -/
structure CompletionItem where
  label : String
  detail : String
  sortText : String
  preselect : Bool
  filterText : String
  textEdit : TextEdit
deriving DecidableEq

/-- The suffix of `s` standing after its last `@`, if any. -/
def afterLastAt : List Char → Option (List Char)
  | [] => none
  | '@' :: rest =>
    (match afterLastAt rest with
     | some r => some r
     | none => some rest)
  | _ :: rest => afterLastAt rest

/-- Match of `@([^\s@]*)$` against the cursor-line prefix: only the last
`@` can start a match (the capture class excludes `@`), and the whole
suffix after it must be free of whitespace; the capture is that suffix. -/
def atMatch (s : List Char) : Option (List Char) :=
  match afterLastAt s with
  | some suffix => if suffix.all (fun c => !isSpace c) then some suffix else none
  | none => none

/-- Construction of one completion item for an index entry `p`, given
the typed capture and the cursor column (source lines 148-172): entries
whose label starts with the typed text yield an item with the label as
display text, a detail naming the identifier, top sort priority,
preselection, filter text `@label`, and a text edit that replaces from
the `@` through the cursor when the column allows and otherwise inserts
at the cursor. -/
def mkCompletion (typedL : List Char) (ch : Nat) (p : String × String) :
    Option CompletionItem :=
  if strStartsWith p.1 typedL.asString then
    some ⟨p.1, "替换为: " ++ p.2, "\x00", true, "@" ++ p.1,
      if typedL.length + 1 ≤ ch then
        TextEdit.replace (ch - typedL.length - 1) ch p.2
      else TextEdit.insert ch p.2⟩
  else none

/-- The core of `provideCompletionItems` (source lines 138-176): compute
the line prefix up to the cursor column, match `@([^\s@]*)$`, and build
one completion item per matching index entry. -/
def resolveCompletions (index : AnnMap) (lineText : String) (ch : Nat) :
    List CompletionItem :=
  match atMatch (lineText.data.take ch) with
  | none => []
  | some typedL => index.filterMap (mkCompletion typedL ch)

/-- The full completion entry point for a document (source lines
128-179): non-file schemes yield no candidates, and an absent store
entry is read as the empty index (`documentAnnotations.get(...) || new
Map()`, line 145). -/
def provideFor (store : Store) (doc : Doc) (lineText : String) (ch : Nat) :
    List CompletionItem :=
  if doc.scheme = "file" then
    resolveCompletions
      (match alGet store doc.uri with
       | some m => m
       | none => []) lineText ch
  else []

/-- State of one `debounce` wrapper (source lines 8-18) under explicit
single-threaded time: the pending timer, if any, as its fire time and
captured arguments, and the list of executions already fired, in order. -/
structure DebSt (α : Type) where
  pending : Option (Nat × α)
  fired : List (Nat × α)
deriving DecidableEq

/-- One call of the function returned by `debounce(callback, delay)` at
time `t` with argument `a`: a pending timer whose fire time has already
passed has executed; a still-pending timer is cancelled by
`clearTimeout`; either way `setTimeout` schedules the callback with the
new argument at `t + delay`. -/
def dtrigger {α : Type} (delay : Nat) (s : DebSt α) (t : Nat) (a : α) :
    DebSt α :=
  match s.pending with
  | some pa =>
    if pa.1 ≤ t then ⟨some (t + delay, a), s.fired ++ [pa]⟩
    else ⟨some (t + delay, a), s.fired⟩
  | none => ⟨some (t + delay, a), s.fired⟩

/-- Executions once no further trigger arrives: the fired list followed
by the still-pending timer, which then fires. -/
def drain {α : Type} (s : DebSt α) : List (Nat × α) :=
  s.fired ++ s.pending.toList

/-- All executions of a debounced function for a finite trigger
sequence, times nondecreasing. -/
def runTriggers {α : Type} (delay : Nat) (evs : List (Nat × α)) :
    List (Nat × α) :=
  drain (evs.foldl (fun s e => dtrigger delay s e.1 e.2) ⟨none, []⟩)

/-- Controller state relevant to the debounced re-indexing: the state of
the single shared wrapper `parseDocumentWithDebounce2 =
debounce(parseDocument, 300)` (source line 88), whose executions are
`parseDocument` runs on the captured document. -/
structure CtrlState where
  deb2 : DebSt Doc
deriving DecidableEq

/-- Embedding of `parseDocumentWithDebounce` (source lines 84-86): its body builds
`debounce(() => parseDocument(doc), 1000)` — a fresh wrapper in its
initial state — and discards it without ever invoking the returned
trigger, so calling it has no observable effect on any state. -/
def parseDocumentWithDebounce (doc : Doc) (s : CtrlState) : CtrlState :=
  let deadDelay : Nat := 1000
  let deadWrapper : DebSt Doc := ⟨none, []⟩
  let _ := (deadDelay, deadWrapper, doc)
  s

/-- The `onDidChangeTextDocument` handler (source lines 109-121): if the
changed document's URI string equals that of some visible editor's
document, trigger the shared wrapper `parseDocumentWithDebounce2`, whose
delay is 300. -/
def handleTextChanged (visible : List Doc) (s : CtrlState) (t : Nat)
    (doc : Doc) : CtrlState :=
  if visible.any (fun e => e.uri = doc.uri) then
    ⟨dtrigger 300 s.deb2 t doc⟩
  else s

/-- The `onDidChangeVisibleTextEditors` handler (source lines 96-106):
for a non-empty editor list, trigger the same shared wrapper
`parseDocumentWithDebounce2` once per newly visible document. -/
def handleVisibleChanged (s : CtrlState) (t : Nat) (docs : List Doc) :
    CtrlState :=
  if docs.isEmpty then s
  else ⟨docs.foldl (fun d doc => dtrigger 300 d t doc) s.deb2⟩

/-- Run a sequence of text-change events, all on visible documents, from
the initial controller state, and collect the scan executions. -/
def runChanges (visible : List Doc) (evs : List (Nat × Doc)) :
    List (Nat × Doc) :=
  drain (evs.foldl (fun s e => handleTextChanged visible s e.1 e.2)
    ⟨⟨none, []⟩⟩).deb2

/-- Whether a line is a `//` comment line: its trimmed text starts with
`//` (spec glossary reading of "comment line"). -/
def isCommentLine (s : String) : Bool :=
  strStartsWith (trimChars s.data).asString "//"

/-- Path segments of a filesystem path, split at `/` — the reading of
"whole path segment" used by the excluded-directory claim. -/
def splitSegAux : List Char → List Char → List (List Char)
  | [], acc => [acc.reverse]
  | '/' :: rest, acc => acc.reverse :: splitSegAux rest []
  | c :: rest, acc => splitSegAux rest (c :: acc)

/-- Segments of a path string. -/
def pathSegments (s : String) : List String :=
  (splitSegAux s.data []).map List.asString

/-- Concrete visible document A for the shared-debounce scenario. -/
def cDocA : Doc :=
  ⟨"file", "/w/a.ts", "file:///w/a.ts", "// @x\nconst y = 1;"⟩

/-- Concrete visible document B, distinct from A. -/
def cDocB : Doc :=
  ⟨"file", "/w/b.ts", "file:///w/b.ts", "// @z\nconst w = 2;"⟩

/-- Concrete document whose path lies outside the workspace root. -/
def cDocOut : Doc :=
  ⟨"file", "/elsewhere/a.ts", "file:///elsewhere/a.ts",
    "// @a\nconst b = 1;"⟩

/-- Concrete document whose path contains `.vscode` only inside the
longer segment `my.vscode-theme`. -/
def cDocTheme : Doc :=
  ⟨"file", "/p/my.vscode-theme/a.ts", "file:///p/my.vscode-theme/a.ts",
    "// @a\nconst b = 1;"⟩

/-! Helper lemmas about the association-list operations and the scanning
loop. -/

theorem alGet_alSet_self {β : Type} (m : List (String × β)) (k : String)
    (v : β) : alGet (alSet m k v) k = some v := by
  induction m with
  | nil => simp [alSet, alGet]
  | cons p rest ih =>
    obtain ⟨k', v'⟩ := p
    by_cases h : k' = k
    · simp [alSet, h, alGet]
    · simp [alSet, h, alGet, ih]

theorem alGet_alSet_ne {β : Type} (m : List (String × β)) (k k' : String)
    (v : β) (h : k' ≠ k) :
    alGet (alSet m k v) k' = alGet m k' := by
  induction m with
  | nil =>
    simp only [alSet, alGet]
    rw [if_neg (fun hh : k = k' => h hh.symm)]
  | cons p rest ih =>
    obtain ⟨k'', v''⟩ := p
    by_cases h2 : k'' = k
    · subst h2
      simp only [alSet, if_pos rfl, alGet]
      rw [if_neg (fun hh : k'' = k' => h hh.symm),
        if_neg (fun hh : k'' = k' => h hh.symm)]
    · simp only [alSet, if_neg h2, alGet]
      by_cases h3 : k'' = k'
      · rw [if_pos h3, if_pos h3]
      · rw [if_neg h3, if_neg h3, ih]

theorem alGet_scanStep_of_label_ne (line : String) (rest : List String)
    (m : AnnMap) (L : String) (h : annLabel line ≠ some L) :
    alGet (scanStep line rest m) L = alGet m L := by
  unfold scanStep
  cases hA : annLabel line with
  | none => rfl
  | some lab =>
    cases Option.bind (firstNonBlank rest) extractIdent with
    | none => rfl
    | some v =>
      exact alGet_alSet_ne m lab L v (fun e => h (by rw [hA, e]))

theorem scanStep_of_bind_none (line : String) (rest : List String)
    (m : AnnMap)
    (h : Option.bind (firstNonBlank rest) extractIdent = none) :
    scanStep line rest m = m := by
  unfold scanStep
  rw [h]
  cases annLabel line with
  | none => rfl
  | some lab => rfl

theorem scanStep_set (line : String) (rest : List String) (m : AnnMap)
    (L X nb : String) (h1 : annLabel line = some L)
    (h2 : firstNonBlank rest = some nb) (h3 : extractIdent nb = some X) :
    scanStep line rest m = alSet m L X := by
  unfold scanStep
  rw [h1, h2, Option.some_bind, h3]

theorem scanLines_no_label (lines : List String) (m : AnnMap) (L : String)
    (h : ∀ l ∈ lines, annLabel l ≠ some L) :
    alGet (scanLines lines m) L = alGet m L := by
  induction lines generalizing m with
  | nil => rfl
  | cons line rest ih =>
    have hline := h line (List.mem_cons_self _ _)
    have hrest : ∀ l ∈ rest, annLabel l ≠ some L := fun l hl =>
      h l (List.mem_cons_of_mem _ hl)
    simp only [scanLines]
    rw [ih _ hrest]
    exact alGet_scanStep_of_label_ne line rest m L hline

theorem scanLines_last_set (pre : List String) (m : AnnMap) (line : String)
    (post : List String) (L X nb : String)
    (h1 : annLabel line = some L) (h2 : firstNonBlank post = some nb)
    (h3 : extractIdent nb = some X)
    (h4 : ∀ l ∈ post, annLabel l ≠ some L) :
    alGet (scanLines (pre ++ line :: post) m) L = some X := by
  induction pre generalizing m with
  | nil =>
    rw [List.nil_append]
    simp only [scanLines]
    rw [scanLines_no_label post _ L h4,
      scanStep_set line post m L X nb h1 h2 h3]
    exact alGet_alSet_self m L X
  | cons p pre ih =>
    rw [List.cons_append]
    simp only [scanLines]
    exact ih _

theorem scanLines_skip_all (lines : List String) (m : AnnMap) (L : String)
    (h : ∀ i < lines.length, annLabel (lines.getD i "") = some L →
      Option.bind (firstNonBlank (lines.drop (i + 1))) extractIdent = none) :
    alGet (scanLines lines m) L = alGet m L := by
  induction lines generalizing m with
  | nil => rfl
  | cons line rest ih =>
    have hrest : ∀ i < rest.length, annLabel (rest.getD i "") = some L →
        Option.bind (firstNonBlank (rest.drop (i + 1))) extractIdent =
          none := by
      intro i hi hl
      have := h (i + 1) (by simpa using Nat.succ_lt_succ hi)
        (by simpa using hl)
      simpa using this
    simp only [scanLines]
    rw [ih _ hrest]
    by_cases hlab : annLabel line = some L
    · have h0 := h 0 (by simp) (by simpa using hlab)
      rw [List.drop_succ_cons, List.drop_zero] at h0
      rw [scanStep_of_bind_none line rest m h0]
    · exact alGet_scanStep_of_label_ne line rest m L hlab

theorem filterMap_if_eq {α β : Type} (q : α → Bool) (g : α → β)
    (l : List α) :
    l.filterMap (fun x => if q x then some (g x) else none) =
      (l.filter q).map g := by
  induction l with
  | nil => rfl
  | cons a l ih =>
    by_cases h : q a = true
    · simp [List.filterMap_cons, List.filter_cons, h, ih]
    · simp [List.filterMap_cons, List.filter_cons, h, ih]

theorem resolveCompletions_empty (lineText : String) (ch : Nat) :
    resolveCompletions [] lineText ch = [] := by
  unfold resolveCompletions
  cases hA : atMatch (lineText.data.take ch) <;> rfl

/-! Claim theorems. -/

/-- C1: for every document text, if an annotation line carrying label `L`
is followed, skipping only blank or whitespace-only lines, by a first
non-blank line from which the identifier patterns (`const`/`let`/`var`
declaration, or object property `X:`) extract `X`, and no later line of
the text carries annotation label `L`, then `scan` of that text maps `L`
to `X`. -/
theorem c1_scan_maps_label (text L X nb line : String)
    (pre post : List String)
    (hsplit : splitLines text = pre ++ line :: post)
    (hlab : annLabel line = some L)
    (hnb : firstNonBlank post = some nb)
    (hx : extractIdent nb = some X)
    (hlater : ∀ l ∈ post, annLabel l ≠ some L) :
    alGet (scan text) L = some X := by
  unfold scan
  rw [hsplit]
  exact scanLines_last_set pre [] line post L X nb hlab hnb hx hlater

/-- Witness for C1 at the spec's own scenario text. -/
theorem c1_scan_maps_label_witness :
    alGet (scan "// @uid\nconst userId = 5;") "uid" = some "userId" :=
  c1_scan_maps_label "// @uid\nconst userId = 5;" "uid" "userId"
    "const userId = 5;" "// @uid" [] ["const userId = 5;"]
    (by decide) (by decide) (by decide) (by decide) (by decide)

/-- C3: when the same label `L` occurs on two annotation lines, each
followed (skipping blanks) by a line from which an identifier is
extracted, and `L` occurs on no later annotation line, the index maps
`L` to the identifier extracted after the second, lexically later,
occurrence. -/
theorem c3_last_occurrence_wins (text L X1 X2 nb1 nb2 l1 l2 : String)
    (pre mid post : List String)
    (hsplit : splitLines text = pre ++ l1 :: (mid ++ l2 :: post))
    (hlab1 : annLabel l1 = some L) (hlab2 : annLabel l2 = some L)
    (hnb1 : firstNonBlank (mid ++ l2 :: post) = some nb1)
    (hx1 : extractIdent nb1 = some X1)
    (hnb2 : firstNonBlank post = some nb2)
    (hx2 : extractIdent nb2 = some X2)
    (hlater : ∀ l ∈ post, annLabel l ≠ some L) :
    alGet (scan text) L = some X2 := by
  unfold scan
  rw [hsplit]
  have hassoc : pre ++ l1 :: (mid ++ l2 :: post) =
      (pre ++ l1 :: mid) ++ l2 :: post := by simp
  rw [hassoc]
  exact scanLines_last_set (pre ++ l1 :: mid) [] l2 post L X2 nb2
    hlab2 hnb2 hx2 hlater

/-- Witness for C3: the duplicate label `a` ends up mapped to `y`, the
identifier following its second occurrence. -/
theorem c3_last_occurrence_wins_witness :
    alGet (scan "// @a\nconst x = 1;\n// @a\nconst y = 2;") "a" =
      some "y" :=
  c3_last_occurrence_wins "// @a\nconst x = 1;\n// @a\nconst y = 2;"
    "a" "x" "y" "const x = 1;" "const y = 2;" "// @a" "// @a"
    [] ["const x = 1;"] ["const y = 2;"]
    (by decide) (by decide) (by decide) (by decide) (by decide)
    (by decide) (by decide) (by decide)

/-- C2: whenever the line prefix up to the cursor matches `@([^\s@]*)$`
with capture `typed` and the cursor column is at least `typed.length + 1`,
the resolver returns exactly the index entries whose label starts with
`typed` (case-sensitively), each as an item whose display text is the
label, whose detail names the identifier, and whose edit replaces the
span from the `@` through the cursor with the identifier; in particular,
for the index mapping `foo` to `userId` and `bar` to `count` with typed
prefix `f`, exactly one candidate results, labelled `foo`, with detail
naming `userId` and edit replacing the two columns covering `@f`. -/
theorem c2_resolver_candidates :
    (∀ (index : AnnMap) (lineText : String) (ch : Nat)
      (typedL : List Char),
      atMatch (lineText.data.take ch) = some typedL →
      typedL.length + 1 ≤ ch →
      resolveCompletions index lineText ch =
        (index.filter (fun p => strStartsWith p.1 typedL.asString)).map
          (fun p => ⟨p.1, "替换为: " ++ p.2, "\x00", true, "@" ++ p.1,
            TextEdit.replace (ch - typedL.length - 1) ch p.2⟩)) ∧
    resolveCompletions [("foo", "userId"), ("bar", "count")] "@f" 2 =
      [⟨"foo", "替换为: userId", "\x00", true, "@foo",
        TextEdit.replace 0 2 "userId"⟩] := by
  constructor
  · intro index lineText ch typedL hm hc
    have hstep : resolveCompletions index lineText ch =
        index.filterMap (mkCompletion typedL ch) := by
      unfold resolveCompletions
      rw [hm]
    rw [hstep]
    have hfun : mkCompletion typedL ch = (fun p =>
        if strStartsWith p.1 typedL.asString then
          some (⟨p.1, "替换为: " ++ p.2, "\x00", true, "@" ++ p.1,
            TextEdit.replace (ch - typedL.length - 1) ch p.2⟩ :
              CompletionItem)
        else none) := by
      funext p
      unfold mkCompletion
      rw [if_pos hc]
    rw [hfun]
    exact filterMap_if_eq _ _ index
  · decide

/-- Witness for C2, applying the quantified part at the spec's index and
typed prefix. -/
theorem c2_resolver_candidates_witness :
    resolveCompletions [("foo", "userId"), ("bar", "count")] "@f" 2 =
      ([("foo", "userId"), ("bar", "count")].filter
        (fun p => strStartsWith p.1 ['f'].asString)).map
          (fun p => ⟨p.1, "替换为: " ++ p.2, "\x00", true, "@" ++ p.1,
            TextEdit.replace (2 - ['f'].length - 1) 2 p.2⟩) :=
  c2_resolver_candidates.1 [("foo", "userId"), ("bar", "count")] "@f" 2
    ['f'] (by decide) (by decide)

/-- C4: for the debounced function with delay 300 and triggers at times
`t`, `t + 10`, `t + 20`, the action executes exactly once, at time
`t + 20 + 300`, with the arguments of the last trigger; and any trigger
arriving strictly before a pending execution's fire time cancels that
pending execution and restarts the timer with the latest arguments. -/
theorem c4_debounce (α : Type) (t : Nat) (a1 a2 a3 : α) :
    runTriggers 300 [(t, a1), (t + 10, a2), (t + 20, a3)] =
      [(t + 20 + 300, a3)] ∧
    (∀ (delay : Nat) (s : DebSt α) (t2 : Nat) (a : α) (ft : Nat) (fa : α),
      s.pending = some (ft, fa) → t2 < ft →
      dtrigger delay s t2 a = ⟨some (t2 + delay, a), s.fired⟩) := by
  constructor
  · have h1 : dtrigger 300 (⟨none, []⟩ : DebSt α) t a1 =
        ⟨some (t + 300, a1), []⟩ := rfl
    have h2 : dtrigger 300 (⟨some (t + 300, a1), []⟩ : DebSt α)
        (t + 10) a2 = ⟨some (t + 10 + 300, a2), []⟩ := by
      show (if t + 300 ≤ t + 10 then
          (⟨some (t + 10 + 300, a2), [] ++ [(t + 300, a1)]⟩ : DebSt α)
        else ⟨some (t + 10 + 300, a2), []⟩) = ⟨some (t + 10 + 300, a2), []⟩
      rw [if_neg (by omega)]
    have h3 : dtrigger 300 (⟨some (t + 10 + 300, a2), []⟩ : DebSt α)
        (t + 20) a3 = ⟨some (t + 20 + 300, a3), []⟩ := by
      show (if t + 10 + 300 ≤ t + 20 then
          (⟨some (t + 20 + 300, a3), [] ++ [(t + 10 + 300, a2)]⟩ : DebSt α)
        else ⟨some (t + 20 + 300, a3), []⟩) = ⟨some (t + 20 + 300, a3), []⟩
      rw [if_neg (by omega)]
    unfold runTriggers
    simp only [List.foldl]
    rw [h1, h2, h3]
    rfl
  · intro delay s t2 a ft fa hp hlt
    unfold dtrigger
    rw [hp]
    exact if_neg (by omega)

/-- Witness for C4: the concrete trigger burst at times 0, 10, 20 and a
concrete cancellation of a pending timer. -/
theorem c4_debounce_witness :
    runTriggers 300 [(0, 1), (10, 2), (20, 3)] = [(320, 3)] ∧
    dtrigger 300 (⟨some (300, 1), []⟩ : DebSt Nat) 10 2 =
      ⟨some (310, 2), []⟩ :=
  ⟨(c4_debounce Nat 0 1 2 3).1,
    (c4_debounce Nat 0 1 2 3).2 300 ⟨some (300, 1), []⟩ 10 2 300 1 rfl
      (by omega)⟩

/-- C5: a text-change event on a visible document routes through the
single shared wrapper `parseDocumentWithDebounce2`, whose delay is 300:
the pending scan is scheduled 300 time-units after the trigger, never
1000, and the 1000-unit wrapper `parseDocumentWithDebounce` has no
effect at all when called — it builds a debounced function and discards
it without triggering. -/
theorem c5_text_change_window (visible : List Doc) (s : CtrlState)
    (t : Nat) (doc : Doc)
    (hvis : visible.any (fun e => e.uri = doc.uri) = true) :
    (handleTextChanged visible s t doc).deb2.pending =
      some (t + 300, doc) ∧
    (∀ (ft : Nat) (args : Doc),
      (handleTextChanged visible s t doc).deb2.pending =
        some (ft, args) → ft ≠ t + 1000) ∧
    parseDocumentWithDebounce doc s = s := by
  have hpend : (handleTextChanged visible s t doc).deb2.pending =
      some (t + 300, doc) := by
    unfold handleTextChanged
    rw [if_pos hvis]
    unfold dtrigger
    cases s.deb2.pending with
    | none => rfl
    | some pa =>
      by_cases hle : pa.1 ≤ t
      · show (if pa.1 ≤ t then (⟨some (t + 300, doc),
            s.deb2.fired ++ [pa]⟩ : DebSt Doc)
          else ⟨some (t + 300, doc), s.deb2.fired⟩).pending = _
        rw [if_pos hle]
      · show (if pa.1 ≤ t then (⟨some (t + 300, doc),
            s.deb2.fired ++ [pa]⟩ : DebSt Doc)
          else ⟨some (t + 300, doc), s.deb2.fired⟩).pending = _
        rw [if_neg hle]
  refine ⟨hpend, ?_, rfl⟩
  intro ft args hft
  rw [hpend] at hft
  have : ft = t + 300 := by
    injection hft with h
    exact (congrArg Prod.fst h).symm
  omega

/-- Witness for C5: a concrete visible document whose change at time 0
schedules the scan at time 300. -/
theorem c5_text_change_window_witness :
    (handleTextChanged [cDocA] ⟨⟨none, []⟩⟩ 0 cDocA).deb2.pending =
      some (300, cDocA) :=
  (c5_text_change_window [cDocA] ⟨⟨none, []⟩⟩ 0 cDocA (by decide)).1

/-- C6: with two distinct visible documents `A` and `B` and the single
shared wrapper `parseDocumentWithDebounce2`, the text-change trigger for
`B` at time 100 — before `A`'s pending scan (triggered at time 0, delay
300) fires — cancels `A`'s scan: the only execution is `B`'s, at time
400, so `A` is never scanned, contrary to the claim that triggers on
distinct documents never cancel each other. -/
theorem c6_shared_wrapper_cancels :
    cDocA ≠ cDocB ∧
    runChanges [cDocA, cDocB] [(0, cDocA), (100, cDocB)] =
      [(400, cDocB)] := by
  decide

/-- C7 counterexample: the comment line `// note: temp` is the first
non-blank line after the annotation line `// @lab`, yet it matches the
object-property pattern `(\w+)\s*:`, so the label is not dropped: `scan`
maps `lab` to `note`, while the claim demands `lab` be absent from the
index. -/
theorem c7_comment_line_cex :
    annLabel "// @lab" = some "lab" ∧
    splitLines "// @lab\n// note: temp" = ["// @lab", "// note: temp"] ∧
    firstNonBlank ["// note: temp"] = some "// note: temp" ∧
    isCommentLine "// note: temp" = true ∧
    alGet (scan "// @lab\n// note: temp") "lab" = some "note" := by
  decide

/-- C7 amended: if every line carrying annotation label `L` has its
lookahead fail — no following non-blank line, or a first non-blank line
from which neither identifier pattern extracts, as for a comment line
without a colon such as another plain annotation line — then `L` is
absent from the resulting index.  A comment line does not in general
fail the identifier patterns: one containing `name:` matches the
object-property pattern. -/
theorem c7_label_dropped (text L : String)
    (h : ∀ i < (splitLines text).length,
      annLabel ((splitLines text).getD i "") = some L →
      Option.bind (firstNonBlank ((splitLines text).drop (i + 1)))
        extractIdent = none) :
    alGet (scan text) L = none := by
  unfold scan
  rw [scanLines_skip_all _ _ _ h]
  rfl

/-- Witness for C7: a label line followed only by another plain
annotation line is dropped. -/
theorem c7_label_dropped_witness :
    alGet (scan "// @lab\n// @second") "lab" = none :=
  c7_label_dropped "// @lab\n// @second" "lab" (by decide)

/-- C8: for a document whose path lies outside every configured
workspace root, `parseDocument` performs no scan and leaves the store
unchanged — in particular without an entry for that document — and every
completion request for it returns the empty candidate list, regardless
of the document's content, line text and cursor position, because the
absent index is read as an empty index. -/
theorem c8_outside_workspace (fs : List String) (store : Store)
    (doc : Doc) (lineText : String) (ch : Nat)
    (houtside : ∀ f ∈ fs, strStartsWith doc.fsPath f = false)
    (habsent : alGet store doc.uri = none) :
    parseDoc (some fs) store doc = store ∧
    alGet (parseDoc (some fs) store doc) doc.uri = none ∧
    provideFor store doc lineText ch = [] := by
  have hany : fs.any (fun f => strStartsWith doc.fsPath f) = false := by
    rw [List.any_eq_false]
    intro f hf
    simp [houtside f hf]
  have hskip : parseDoc (some fs) store doc = store := by
    unfold parseDoc
    by_cases hs : doc.scheme ≠ "file"
    · rw [if_pos hs]
    · rw [if_neg hs]
      show (if (!fs.any fun f => strStartsWith doc.fsPath f) = true then
          store
        else if excludedPath doc.fsPath = true then store
        else alSet store doc.uri (scan doc.text)) = store
      simp [hany]
  refine ⟨hskip, by rw [hskip, habsent], ?_⟩
  unfold provideFor
  by_cases hs : doc.scheme = "file"
  · rw [if_pos hs, habsent]
    exact resolveCompletions_empty lineText ch
  · rw [if_neg hs]

/-- Witness for C8 at a concrete document outside the root `/w`, with
content a perfectly valid annotation. -/
theorem c8_outside_workspace_witness :
    parseDoc (some ["/w"]) [] cDocOut = [] ∧
    alGet (parseDoc (some ["/w"]) [] cDocOut) cDocOut.uri = none ∧
    provideFor [] cDocOut "@a" 2 = [] :=
  c8_outside_workspace ["/w"] [] cDocOut "@a" 2 (by decide) (by decide)

/-- C9 counterexample: the path `/p/my.vscode-theme/a.ts` contains
`.vscode` only inside the longer segment `my.vscode-theme` — neither
`node_modules` nor `.vscode` is a whole path segment — yet the substring
test of source line 43 flags it, and `parseDocument` skips the document
and stores nothing, while the claim says such a document passes the
check and is scanned. -/
theorem c9_segment_cex :
    pathSegments cDocTheme.fsPath =
      ["", "p", "my.vscode-theme", "a.ts"] ∧
    ("node_modules" ∈ pathSegments cDocTheme.fsPath → False) ∧
    (".vscode" ∈ pathSegments cDocTheme.fsPath → False) ∧
    strStartsWith cDocTheme.fsPath "/p" = true ∧
    excludedPath cDocTheme.fsPath = true ∧
    parseDoc (some ["/p"]) [] cDocTheme = [] := by
  decide

/-- C9 amended: the excluded-directory check skips a document exactly
when its file path contains `node_modules` or `.vscode` anywhere as a
substring — not only as a whole path segment — so a path such as
`/p/my.vscode-theme/a.ts` is skipped, not scanned; a file-scheme,
in-workspace document is scanned exactly when the substring test comes
out false. -/
theorem c9_excluded_substring (fs : List String) (store : Store)
    (doc : Doc) (hscheme : doc.scheme = "file")
    (hws : fs.any (fun f => strStartsWith doc.fsPath f) = true) :
    (excludedPath doc.fsPath = true →
      parseDoc (some fs) store doc = store) ∧
    (excludedPath doc.fsPath = false →
      parseDoc (some fs) store doc = alSet store doc.uri (scan doc.text)) := by
  constructor
  · intro h
    unfold parseDoc
    rw [if_neg (by rw [hscheme]; intro hc; exact hc rfl)]
    show (if (!fs.any fun f => strStartsWith doc.fsPath f) = true then
        store
      else if excludedPath doc.fsPath = true then store
      else alSet store doc.uri (scan doc.text)) = store
    simp [hws, h]
  · intro h
    unfold parseDoc
    rw [if_neg (by rw [hscheme]; intro hc; exact hc rfl)]
    show (if (!fs.any fun f => strStartsWith doc.fsPath f) = true then
        store
      else if excludedPath doc.fsPath = true then store
      else alSet store doc.uri (scan doc.text)) =
        alSet store doc.uri (scan doc.text)
    simp [hws, h]

/-- Witness for C9: the concrete theme-directory document is skipped. -/
theorem c9_excluded_substring_witness :
    parseDoc (some ["/p"]) [] cDocTheme = [] :=
  (c9_excluded_substring ["/p"] [] cDocTheme (by decide) (by decide)).1
    (by decide)

/-- C10: the annotation line with a lone `@` and a trailing space
captures a single space that trims to the empty label, mapped to the
following `const` identifier `x`; and a completion request right after a
bare `@` (empty typed prefix) returns one candidate with empty display
label whose edit replaces the `@` with `x`. -/
theorem c10_empty_label :
    alGet (scan "// @ \nconst x = 1;") "" = some "x" ∧
    resolveCompletions (scan "// @ \nconst x = 1;") "@" 1 =
      [⟨"", "替换为: x", "\x00", true, "@", TextEdit.replace 0 1 "x"⟩] := by
  decide

end Comment2Var
